import Mathlib

/-!
# Verification of the InteractiveRadialScanHitsChart layout core

Shallow embedding, in Lean 4, of the data normalizer, the deterministic
three-key signal sort, the rotation normalization, and the two-pass radial
text-layout engine of the `InteractiveRadialScanHitsChart` repository
(`src/PrintRadialChart.jsx`, `src/RadialScanChart.jsx`).

Modelling conventions:
* JavaScript strings are modelled by Lean `String` / `List Char`; the
  JS string primitives used by the source (`trim`, `toLowerCase`,
  `split('|')`, `replace(/\s{2,}/g, ' ')`, `indexOf`) are embedded as
  executable Lean functions below, agreeing with ECMAScript semantics on
  the code points the source data uses.
* JS numbers are modelled by `ℚ` where the code only adds, subtracts,
  multiplies and divides (angles, rotations), and by `ℝ` where the code
  calls `Math.sin` / `Math.cos` (text positioning).
* `Array.prototype.sort` with a consistent comparator `cmp` is required
  by ECMAScript to be stable; a stable sort by the total preorder
  `fun a b => cmp a b ≤ 0` has a unique result, which we model with
  `List.insertionSort` (a stable sort) over that preorder.
* Fallible steps (`try { getBBox() } catch`) are modelled with `Except`;
  absent object fields / `undefined` with `Option`.
-/

/-- ECMAScript whitespace (`\s` of the regex in `cleanText`, and the
character class removed by `String.prototype.trim`): space, tab, line
terminators, and the Unicode space code points. -/
def isJsWs (c : Char) : Bool :=
  c = ' ' || c = '\t' || c = '\n' || c = '\r' ||
  c.val = 0x0B || c.val = 0x0C || c.val = 0xA0 ||
  c.val = 0x1680 || (0x2000 ≤ c.val && c.val ≤ 0x200A) ||
  c.val = 0x2028 || c.val = 0x2029 || c.val = 0x202F ||
  c.val = 0x205F || c.val = 0x3000 || c.val = 0xFEFF

/-- `String.prototype.trim` on the character list: drop leading and
trailing whitespace. -/
def jsTrimL (l : List Char) : List Char :=
  ((l.dropWhile isJsWs).reverse.dropWhile isJsWs).reverse

/-- `String.prototype.trim`. -/
def jsTrim (s : String) : String :=
  ⟨jsTrimL s.data⟩

/-- `String.prototype.toLowerCase` (the source's lookup keys and data are
ASCII, where `Char.toLower` agrees with ECMAScript). -/
def jsToLower (s : String) : String :=
  ⟨s.data.map Char.toLower⟩

/-- `String.prototype.split('|')` on the character list: split on every
`'|'`, keeping empty pieces (`''.split('|')` is `['']`). -/
def jsSplitPipeL : List Char → List (List Char)
  | [] => [[]]
  | c :: rest =>
    if c = '|' then [] :: jsSplitPipeL rest
    else
      match jsSplitPipeL rest with
      | [] => [[c]]
      | t :: ts => (c :: t) :: ts

/-- `String.prototype.split('|')`. -/
def jsSplitPipe (s : String) : List String :=
  (jsSplitPipeL s.data).map (fun l => ⟨l⟩)

/-- `Array.prototype.indexOf`: index of the first occurrence, `-1` when
the element is absent.  (Note: `-1`, not the length of the array.) -/
def jsIndexOf (l : List String) (s : String) : Int :=
  match l.findIdx? (fun t => t = s) with
  | some i => (i : Int)
  | none => -1

/-- `x || d` for a possibly-absent JS string `x`: `undefined` and the
empty string are falsy and yield the default. -/
def jsOrStr (o : Option String) (d : String) : String :=
  match o with
  | none => d
  | some s => if s = "" then d else s

/-- `replace(/\s{2,}/g, ' ')` from `cleanText` in `PrintRadialChart.jsx`:
each maximal run of two or more whitespace characters is replaced by a
single space; a lone whitespace character is left unchanged. -/
def collapseWs : List Char → List Char
  | [] => []
  | c :: rest =>
    if isJsWs c then
      if (rest.head?.map isJsWs).getD false then
        ' ' :: collapseWs (rest.dropWhile isJsWs)
      else
        c :: collapseWs rest
    else
      c :: collapseWs rest
termination_by l => l.length
decreasing_by
  · simp only [List.length_cons]
    exact Nat.lt_succ_of_le (List.dropWhile_suffix isJsWs).sublist.length_le
  · simp
  · simp

/-- `cleanText` (`src/PrintRadialChart.jsx` lines 306-312) on an actual
string: `text.trim().replace(/\s{2,}/g, ' ')`. -/
def cleanTextStr (s : String) : String :=
  ⟨collapseWs (jsTrimL s.data)⟩

/-- `cleanText` on a possibly-absent field: `if (!text || typeof text
!== 'string') return text` — `undefined` and `''` are returned as-is. -/
def cleanTextOpt (o : Option String) : Option String :=
  match o with
  | none => none
  | some s => if s = "" then some s else some (cleanTextStr s)

/-- The character-list form of `cleanText` used by the whitespace
theorems. -/
def cleanTextL (l : List Char) : List Char :=
  collapseWs (jsTrimL l)

/-- `DOMAIN_NAME_MAPPING` (identical in both chart files): the fixed
7-entry case-normalized name → canonical id table. -/
def DOMAIN_NAME_MAPPING : List (String × String) :=
  [("teaching & learning models", "teaching-learning"),
   ("equity & access", "equity-access"),
   ("curriculum reform", "curriculum-reform"),
   ("education & society", "education-society"),
   ("technology & digital learning", "technology-digital"),
   ("investment & governance", "investment-governance"),
   ("teacher empowerment", "teacher-empowerment")]

/-- `DOMAIN_ORDER`: canonical innermost → outermost domain order. -/
def DOMAIN_ORDER : List String :=
  ["teaching-learning", "equity-access", "curriculum-reform",
   "education-society", "technology-digital", "investment-governance",
   "teacher-empowerment"]

/-- `STEEP_ORDER`: the fixed 5-value category enumeration. -/
def STEEP_ORDER : List String :=
  ["Social", "Technological", "Economic", "Environmental",
   "Political & Legal"]

/-- The body of the token mapper in `transformData`:
`DOMAIN_NAME_MAPPING[name.toLowerCase()]`, `null` (here `none`) when the
normalized name is not a key of the table. -/
def lookupDomain (name : String) : Option String :=
  DOMAIN_NAME_MAPPING.lookup (jsToLower name)

/-- The token-list stage of `transformData`'s domain pipeline: trim each
token, keep the non-empty ones, map through the table and drop the
unmapped ones (`.map(...).filter(d => d !== null)`). -/
def processTokens (tokens : List String) : List String :=
  (((tokens.map jsTrim).filter (fun d => decide (0 < d.length))).filterMap
    lookupDomain)

/-- The whole domain pipeline of `transformData` (identical in
`RadialScanChart.jsx` lines 128-145 and `PrintRadialChart.jsx` lines
321-338): split the `Domain` field on `|` and process the tokens. -/
def parseDomains (domainString : String) : List String :=
  processTokens (jsSplitPipe domainString)

/-- A raw AITable record (`record.fields`), with the fields read by
`transformData`; absent fields are `none`. -/
structure RawRecord where
  ID : Option String := none
  Title : Option String := none
  EnglishDescription : Option String := none
  Domain : Option String := none
  Horizon : Option String := none
  Link : Option String := none
  RecNumber : Option String := none
  STEEPCategory : Option String := none
  ParticipantIdentifiedBool : Option Bool := none
  ParticipantIdentifiedStr : Option String := none
  Impact : Option String := none
  Timeframe : Option String := none
  Confidence : Option String := none
deriving DecidableEq

/-- A transformed scan hit / signal of change, as built by
`transformData` in `PrintRadialChart.jsx` (lines 319-355). -/
structure ScanHit where
  id : Option String := none
  title : Option String := none
  description : Option String := none
  domains : List String := []
  date : Option String := none
  source : Option String := none
  recNumber : Option String := none
  steepCategory : Option String := none
  participantIdentified : Bool := false
  impact : String := ""
  timeframe : String := ""
  confidence : String := ""
deriving DecidableEq

/-- The per-record body of `transformData` in `PrintRadialChart.jsx`:
one output object per input record.  `Participant Identified` is
`=== true || === 'Yes'`; `Impact`/`Timeframe`/`Confidence` default to
`''` under `||`. -/
def transformRecord (r : RawRecord) : ScanHit :=
  { id := r.ID
    title := cleanTextOpt r.Title
    description := cleanTextOpt r.EnglishDescription
    domains := parseDomains (jsOrStr r.Domain "")
    date := r.Horizon
    source := r.Link
    recNumber := r.RecNumber
    steepCategory := cleanTextOpt r.STEEPCategory
    participantIdentified :=
      decide (r.ParticipantIdentifiedBool = some true) ||
      decide (r.ParticipantIdentifiedStr = some "Yes")
    impact := jsOrStr r.Impact ""
    timeframe := jsOrStr r.Timeframe ""
    confidence := jsOrStr r.Confidence "" }

/-- `transformData`: `records.map(record => {...})`. -/
def transformData (records : List RawRecord) : List ScanHit :=
  records.map transformRecord

/-- `a.steepCategory || 'Unknown'` from `sortScanHits`. -/
def steepOf (a : ScanHit) : String :=
  jsOrStr a.steepCategory "Unknown"

/-- `getInnermostDomain` (`src/PrintRadialChart.jsx` lines 149-157):
empty / absent domain list defaults to `'teacher-empowerment'`;
otherwise `domains.reduce(...)` keeps the domain with the smaller
`DOMAIN_ORDER` index (JS `reduce` without seed starts from the first
element). -/
def getInnermostDomain (domains : List String) : String :=
  match domains with
  | [] => "teacher-empowerment"
  | d :: rest =>
    rest.foldl
      (fun innermost domain =>
        if jsIndexOf DOMAIN_ORDER domain < jsIndexOf DOMAIN_ORDER innermost
        then domain else innermost) d

/-- `getNextOutermostDomain` (`src/PrintRadialChart.jsx` lines 165-178):
with at most one domain, the innermost one; otherwise the remaining
domains' `reduce`-minimum by `DOMAIN_ORDER` index.  (The source also
computes an unused `innermostIndex`.) -/
def getNextOutermostDomain (domains : List String) (innermostDomain : String) :
    String :=
  if domains.length ≤ 1 then innermostDomain
  else
    match domains.filter (fun d => decide (d ≠ innermostDomain)) with
    | [] => innermostDomain
    | r :: rest =>
      rest.foldl
        (fun next domain =>
          if jsIndexOf DOMAIN_ORDER domain < jsIndexOf DOMAIN_ORDER next
          then domain else next) r

/-- Primary sort key: `STEEP_ORDER.indexOf(a.steepCategory || 'Unknown')`
(`-1` for a category outside the enumeration). -/
def steepKey (a : ScanHit) : Int :=
  jsIndexOf STEEP_ORDER (steepOf a)

/-- Secondary sort key: `DOMAIN_ORDER.indexOf(getInnermostDomain(a.domains))`. -/
def innerKey (a : ScanHit) : Int :=
  jsIndexOf DOMAIN_ORDER (getInnermostDomain a.domains)

/-- Tertiary sort key:
`DOMAIN_ORDER.indexOf(getNextOutermostDomain(a.domains, innermost))`. -/
def nextKey (a : ScanHit) : Int :=
  jsIndexOf DOMAIN_ORDER
    (getNextOutermostDomain a.domains (getInnermostDomain a.domains))

/-- The triple of sort keys of one signal. -/
def sortKey (a : ScanHit) : Int × Int × Int :=
  (steepKey a, innerKey a, nextKey a)

/-- The comparator body of `sortScanHits` (`src/PrintRadialChart.jsx`
lines 186-217): difference of STEEP indices when they differ, else of
innermost-domain indices, else of next-outermost-domain indices. -/
def compareScanHits (a b : ScanHit) : Int :=
  if steepKey a ≠ steepKey b then steepKey a - steepKey b
  else if innerKey a ≠ innerKey b then innerKey a - innerKey b
  else nextKey a - nextKey b

/-- The total preorder induced by the comparator: `a` may precede `b`
iff `compareScanHits a b ≤ 0`. -/
def scanLe (a b : ScanHit) : Prop :=
  compareScanHits a b ≤ 0

instance : DecidableRel scanLe := fun a b =>
  inferInstanceAs (Decidable (compareScanHits a b ≤ 0))

/-- `sortScanHits`: `[...scanHits].sort(comparator)`.  ECMAScript
requires `Array.prototype.sort` to be stable, and for the consistent
comparator above the stable sorted permutation is unique; it is computed
here by the stable `List.insertionSort` over `scanLe`. -/
def sortScanHits (scanHits : List ScanHit) : List ScanHit :=
  List.insertionSort scanLe scanHits

/-! ### Rotation normalization and slot angles (over `ℚ`) -/

/-- The first normalization loop (`while (rotation > 90) rotation -= 180`,
`src/RadialScanChart.jsx` lines 732-734 / `src/PrintRadialChart.jsx`
lines 645-647). -/
def reduceDown (x : ℚ) : ℚ :=
  if 90 < x then reduceDown (x - 180) else x
termination_by (Int.ceil (x - 90)).toNat
decreasing_by
  rename_i h
  have h1 : (x - 180 - 90 : ℚ) = (x - 90) - (180 : ℤ) := by push_cast; ring
  rw [h1, Int.ceil_sub_int]
  have h2 : 0 < Int.ceil (x - 90 : ℚ) := by
    rw [Int.lt_ceil]
    push_cast
    linarith
  omega

/-- The second normalization loop (`while (rotation < -90) rotation += 180`). -/
def reduceUp (x : ℚ) : ℚ :=
  if x < -90 then reduceUp (x + 180) else x
termination_by (Int.ceil (-90 - x)).toNat
decreasing_by
  rename_i h
  have h1 : (-90 - (x + 180) : ℚ) = (-90 - x) - (180 : ℤ) := by push_cast; ring
  rw [h1, Int.ceil_sub_int]
  have h2 : 0 < Int.ceil (-90 - x : ℚ) := by
    rw [Int.lt_ceil]
    push_cast
    linarith
  omega

/-- Both normalization loops in order: the rotation-normalization step
that keeps label text right-side-up. -/
def normalizeRotation (x : ℚ) : ℚ :=
  reduceUp (reduceDown x)

/-- The label angle of the interactive chart
(`src/RadialScanChart.jsx` line 714): `(index / scanHits.length) * 360`,
the start angle of the signal's slot. -/
def interactiveLabelAngle (n i : ℕ) : ℚ :=
  ((i : ℚ) / (n : ℚ)) * 360

/-- The label angle of the print chart (`src/PrintRadialChart.jsx`
lines 625-627): `segmentStartAngle + anglePerHit / 2`, the center angle
of the signal's slot. -/
def segmentCenterAngle (n i : ℕ) : ℚ :=
  ((i : ℚ) / (n : ℚ)) * 360 + (360 / (n : ℚ)) / 2

/-- The normalized label rotation of the interactive chart
(`rotation = angle + 90` then both loops). -/
def interactiveLabelRotation (n i : ℕ) : ℚ :=
  normalizeRotation (interactiveLabelAngle n i + 90)

/-- The normalized label rotation of the print chart
(`rotation = segmentCenterAngle + 90` then both loops). -/
def printLabelRotation (n i : ℕ) : ℚ :=
  normalizeRotation (segmentCenterAngle n i + 90)

/-! ### Geometry and the two-pass layout engine (over `ℝ`) -/

/-- A cartesian point, the `{x, y}` object returned by
`polarToCartesian`. -/
structure Pt where
  x : ℝ
  y : ℝ
deriving Inhabited

/-- `CONFIG` of `src/RadialScanChart.jsx` (lines 22-43): the constants
the layout engine reads. -/
noncomputable def centerX : ℝ := 1500

/-- `CONFIG.centerY`. -/
noncomputable def centerY : ℝ := 1500

/-- `CONFIG.scanHitRadius`, the radius of the outermost ring. -/
noncomputable def scanHitRadius : ℝ := 825

/-- `CONFIG.positioning.desiredGap`. -/
noncomputable def desiredGap : ℝ := 3

/-- `CONFIG.positioning.baseOffset`. -/
noncomputable def baseOffset : ℝ := 75

/-- `CONFIG.positioning.microAdjustment`. -/
noncomputable def microAdjustment : ℝ := 5 / 2

/-- `polarToCartesian` (`src/RadialScanChart.jsx` lines 74-80): angle
measured in degrees clockwise from 12 o'clock. -/
noncomputable def polarToCartesian (cx cy radius angleInDegrees : ℝ) : Pt :=
  let angleInRadians := (angleInDegrees - 90) * Real.pi / 180
  { x := cx + radius * Real.cos angleInRadians
    y := cy + radius * Real.sin angleInRadians }

/-- The corrected (Pass-2) radius computed inside `calculateTextPosition`
(`src/RadialScanChart.jsx` lines 90-99): `scanHitRadius + desiredGap -
baseOffset + bbox.width / 2 - |sin(2·angleRad)| · microAdjustment`. -/
noncomputable def adjustedRadius (boxWidth angle baseOff : ℝ) : ℝ :=
  let angleInRadians := angle * Real.pi / 180
  let rotationFactor := |Real.sin (angleInRadians * 2)|
  let baselineShift := rotationFactor * microAdjustment
  scanHitRadius + desiredGap - baseOff + boxWidth / 2 - baselineShift

/-- `calculateTextPosition` (default `baseOffset` argument):
polar-to-cartesian of the corrected radius at the given angle. -/
noncomputable def calculateTextPosition (boxWidth angle : ℝ) : Pt :=
  polarToCartesian centerX centerY (adjustedRadius boxWidth angle baseOffset)
    angle

/-- The Pass-1 (fallback) radius `(scanHitRadius + desiredGap) -
baseOffset`, used before measurement and when measurement throws. -/
noncomputable def pass1Radius : ℝ := scanHitRadius + desiredGap - baseOffset

/-- The Pass-1 position at an angle. -/
noncomputable def pass1Position (angle : ℝ) : Pt :=
  polarToCartesian centerX centerY pass1Radius angle

/-- The slot angle used by the interactive chart's positioning effect
(`src/RadialScanChart.jsx` lines 307, 313): `(index / N) * 360`, as a
real number. -/
noncomputable def layoutAngle (n i : ℕ) : ℝ :=
  ((i : ℝ) / (n : ℝ)) * 360

/-- The outcome of trying to measure one label's bounding box:
`none` — the text element was never mounted (no map entry is written);
`some (.error ())` — `getBBox()` threw (the `catch` branch runs);
`some (.ok w)` — the measured `bbox.width` is `w`. -/
def Measurement : Type := Option (Except Unit ℝ)

/-- The two-pass positioning effect of `src/RadialScanChart.jsx`
(lines 289-326) as a positions map: the early `return` for an empty
signal list leaves the (initially empty) map empty; otherwise each index
gets its Pass-2 corrected position, or the Pass-1 fallback when
`getBBox()` throws, or no entry when its element is missing. -/
noncomputable def layoutPositions (scanHits : List ScanHit)
    (meas : ℕ → Measurement) : ℕ → Option Pt := fun index =>
  if scanHits.length = 0 then none
  else if index < scanHits.length then
    match meas index with
    | none => none
    | some (Except.ok w) =>
      some (calculateTextPosition w (layoutAngle scanHits.length index))
    | some (Except.error _) =>
      some (pass1Position (layoutAngle scanHits.length index))
  else none

/-! ### Properties of the rotation-normalization loops -/

lemma reduceDown_of_gt {x : ℚ} (h : 90 < x) :
    reduceDown x = reduceDown (x - 180) := by
  rw [reduceDown]
  simp [h]

lemma reduceDown_of_le {x : ℚ} (h : x ≤ 90) : reduceDown x = x := by
  rw [reduceDown]
  simp [not_lt.mpr h]

lemma reduceUp_of_lt {x : ℚ} (h : x < -90) :
    reduceUp x = reduceUp (x + 180) := by
  rw [reduceUp]
  simp [h]

lemma reduceUp_of_ge {x : ℚ} (h : -90 ≤ x) : reduceUp x = x := by
  rw [reduceUp]
  simp [not_lt.mpr h]

theorem reduceDown_le (x : ℚ) : reduceDown x ≤ 90 := by
  by_cases h : 90 < x
  · rw [reduceDown_of_gt h]
    exact reduceDown_le (x - 180)
  · rw [reduceDown_of_le (not_lt.mp h)]
    exact not_lt.mp h
termination_by (Int.ceil (x - 90)).toNat
decreasing_by
  have h1 : (x - 180 - 90 : ℚ) = (x - 90) - (180 : ℤ) := by push_cast; ring
  rw [h1, Int.ceil_sub_int]
  have h2 : 0 < Int.ceil (x - 90 : ℚ) := by
    rw [Int.lt_ceil]
    push_cast
    linarith
  omega

theorem reduceDown_gt (x : ℚ) (hx : -90 < x) : -90 < reduceDown x := by
  by_cases h : 90 < x
  · rw [reduceDown_of_gt h]
    exact reduceDown_gt (x - 180) (by linarith)
  · rw [reduceDown_of_le (not_lt.mp h)]
    exact hx
termination_by (Int.ceil (x - 90)).toNat
decreasing_by
  have h1 : (x - 180 - 90 : ℚ) = (x - 90) - (180 : ℤ) := by push_cast; ring
  rw [h1, Int.ceil_sub_int]
  have h2 : 0 < Int.ceil (x - 90 : ℚ) := by
    rw [Int.lt_ceil]
    push_cast
    linarith
  omega

theorem reduceUp_ge (x : ℚ) : -90 ≤ reduceUp x := by
  by_cases h : x < -90
  · rw [reduceUp_of_lt h]
    exact reduceUp_ge (x + 180)
  · rw [reduceUp_of_ge (not_lt.mp h)]
    exact not_lt.mp h
termination_by (Int.ceil (-90 - x)).toNat
decreasing_by
  have h1 : (-90 - (x + 180) : ℚ) = (-90 - x) - (180 : ℤ) := by push_cast; ring
  rw [h1, Int.ceil_sub_int]
  have h2 : 0 < Int.ceil (-90 - x : ℚ) := by
    rw [Int.lt_ceil]
    push_cast
    linarith
  omega

theorem reduceUp_le (x : ℚ) (hx : x ≤ 90) : reduceUp x ≤ 90 := by
  by_cases h : x < -90
  · rw [reduceUp_of_lt h]
    exact reduceUp_le (x + 180) (by linarith)
  · rw [reduceUp_of_ge (not_lt.mp h)]
    exact hx
termination_by (Int.ceil (-90 - x)).toNat
decreasing_by
  have h1 : (-90 - (x + 180) : ℚ) = (-90 - x) - (180 : ℤ) := by push_cast; ring
  rw [h1, Int.ceil_sub_int]
  have h2 : 0 < Int.ceil (-90 - x : ℚ) := by
    rw [Int.lt_ceil]
    push_cast
    linarith
  omega

theorem normalizeRotation_mem (x : ℚ) :
    -90 ≤ normalizeRotation x ∧ normalizeRotation x ≤ 90 := by
  unfold normalizeRotation
  exact ⟨reduceUp_ge (reduceDown x), reduceUp_le _ (reduceDown_le x)⟩

theorem normalizeRotation_of_mem {x : ℚ} (h1 : -90 ≤ x) (h2 : x ≤ 90) :
    normalizeRotation x = x := by
  unfold normalizeRotation
  rw [reduceDown_of_le h2, reduceUp_of_ge h1]

/-- C3: for every input, the rotation normalization (repeatedly subtract
180 while above 90, then repeatedly add 180 while below −90, both loops
proved terminating by well-founded recursion) returns a value in
[−90, 90], and it is idempotent. -/
theorem C3_normalizeRotation_range_idem (x : ℚ) :
    (-90 ≤ normalizeRotation x ∧ normalizeRotation x ≤ 90) ∧
      normalizeRotation (normalizeRotation x) = normalizeRotation x := by
  refine ⟨normalizeRotation_mem x, ?_⟩
  exact normalizeRotation_of_mem (normalizeRotation_mem x).1
    (normalizeRotation_mem x).2

/-- C2 counterexample: in the interactive chart
(`src/RadialScanChart.jsx` lines 712-737), the label of the signal at
index 0 of N = 4 is placed at the slot's START angle 0°, not at the slot
center 45°, and its normalized rotation is 90°, not −45° as the claim
states. -/
theorem C2_counterexample_interactive_uses_start_angle :
    interactiveLabelAngle 4 0 = 0 ∧ interactiveLabelRotation 4 0 = 90 ∧
      (90 : ℚ) ≠ -45 := by
  have h0 : interactiveLabelAngle 4 0 = 0 := by
    norm_num [interactiveLabelAngle]
  refine ⟨h0, ?_, by norm_num⟩
  rw [interactiveLabelRotation, h0]
  norm_num [normalizeRotation_of_mem]

/-- C2 amended: in the print chart (`src/PrintRadialChart.jsx` lines
623-650) the label of index 0 of N = 4 is taken at the slot center 45°,
with base rotation 45 + 90 = 135 before normalization and −45 after; in
the interactive chart (`src/RadialScanChart.jsx` lines 712-737) the
label is taken at the slot start angle 0°, with normalized rotation 90. -/
theorem C2_print_center_interactive_start :
    segmentCenterAngle 4 0 = 45 ∧ segmentCenterAngle 4 0 + 90 = 135 ∧
      printLabelRotation 4 0 = -45 ∧
      interactiveLabelAngle 4 0 = 0 ∧ interactiveLabelRotation 4 0 = 90 := by
  have hc : segmentCenterAngle 4 0 = 45 := by
    norm_num [segmentCenterAngle]
  have h0 : interactiveLabelAngle 4 0 = 0 := by
    norm_num [interactiveLabelAngle]
  refine ⟨hc, by rw [hc]; norm_num, ?_, h0, ?_⟩
  · rw [printLabelRotation, hc, show (45 : ℚ) + 90 = 135 by norm_num]
    unfold normalizeRotation
    rw [reduceDown_of_gt (by norm_num), show (135 : ℚ) - 180 = -45 by norm_num,
      reduceDown_of_le (by norm_num), reduceUp_of_ge (by norm_num)]
  · rw [interactiveLabelRotation, h0]
    norm_num [normalizeRotation_of_mem]

/-- C8: for an empty signal list the positioning effect returns early
(`if (scanHits.length === 0) return`), so the label-positions map is
empty at every index — in particular the per-slot angle computation
`(index / scanHits.length) * 360` guarded behind it is never reached
with N = 0 and nothing throws. -/
theorem C8_empty_list_empty_positions (meas : ℕ → Measurement) (i : ℕ) :
    layoutPositions [] meas i = none := by
  simp [layoutPositions]

/-- C4: at a fixed slot-center angle the Pass-2 corrected radius of
`calculateTextPosition` is strictly monotone in the measured
bounding-box width: the angle-dependent `baselineShift` term is the same
for both widths and the radius grows by half the width difference. -/
theorem C4_adjustedRadius_strictMono (w1 w2 angle baseOff : ℝ)
    (h : w1 < w2) :
    adjustedRadius w1 angle baseOff < adjustedRadius w2 angle baseOff := by
  unfold adjustedRadius
  simp only
  linarith

/-- C4 witness: two concrete widths 10 < 20 at the same angle 45° with
the default base offset 75. -/
theorem C4_adjustedRadius_strictMono_witness :
    (10 : ℝ) < 20 ∧ adjustedRadius 10 45 75 < adjustedRadius 20 45 75 :=
  ⟨by norm_num, C4_adjustedRadius_strictMono 10 20 45 75 (by norm_num)⟩

/-- C9: when measuring label `i` throws (`some (.error ())`), index `i`
falls back to the Pass-1 position at its slot angle, and every index `j`
whose measurement succeeds still gets its Pass-2 corrected position —
one failed measurement never blocks the rest of the pass. -/
theorem C9_per_signal_fallback (hits : List ScanHit)
    (meas : ℕ → Measurement) (i : ℕ) (hi : i < hits.length)
    (hf : meas i = some (Except.error ())) :
    layoutPositions hits meas i =
      some (pass1Position (layoutAngle hits.length i)) ∧
    ∀ j w, j < hits.length → meas j = some (Except.ok w) →
      layoutPositions hits meas j =
        some (calculateTextPosition w (layoutAngle hits.length j)) := by
  have hn : hits.length ≠ 0 := by omega
  constructor
  · simp [layoutPositions, hn, hi, hf]
  · intro j w hj hw
    simp [layoutPositions, hn, hj, hw]

/-- Two default-valued signals, used to exercise the positioning pass. -/
def sampleHits : List ScanHit := [{}, {}]

/-- A measurement outcome where label 0's `getBBox()` throws and every
other label measures width 10. -/
def sampleMeas : ℕ → Measurement := fun i =>
  if i = 0 then some (Except.error ()) else some (Except.ok 10)

/-- C9 witness: with two signals, label 0 throwing and label 1 measuring
10, label 0 gets the Pass-1 fallback and label 1 its Pass-2 position. -/
theorem C9_per_signal_fallback_witness :
    0 < sampleHits.length ∧ sampleMeas 0 = some (Except.error ()) ∧
    (layoutPositions sampleHits sampleMeas 0 =
      some (pass1Position (layoutAngle sampleHits.length 0)) ∧
     ∀ j w, j < sampleHits.length → sampleMeas j = some (Except.ok w) →
      layoutPositions sampleHits sampleMeas j =
        some (calculateTextPosition w (layoutAngle sampleHits.length j))) :=
  ⟨by decide, rfl,
    C9_per_signal_fallback sampleHits sampleMeas 0 (by decide) rfl⟩

/-- C10: `transformData` is a per-record map — output length equals
input length, the `i`-th output is the transform of the `i`-th input,
and a record all of whose `Domain` tokens are unmappable (including a
missing `Domain` field) still yields a signal, with an empty `domains`
list. -/
theorem C10_transformData_one_output_per_record :
    (∀ recs : List RawRecord, (transformData recs).length = recs.length) ∧
    (∀ (recs : List RawRecord) (i : ℕ),
      (transformData recs)[i]? = (recs[i]?).map transformRecord) ∧
    ∀ r : RawRecord,
      (∀ tok ∈ jsSplitPipe (jsOrStr r.Domain ""),
        lookupDomain (jsTrim tok) = none) →
      (transformRecord r).domains = [] := by
  refine ⟨fun recs => List.length_map _ _, fun recs i => ?_, fun r h => ?_⟩
  · simp [transformData]
  · show parseDomains (jsOrStr r.Domain "") = []
    unfold parseDomains processTokens
    rw [List.filterMap_eq_nil_iff]
    intro a ha
    have ha2 := List.mem_of_mem_filter ha
    obtain ⟨tok, htok, rfl⟩ := List.mem_map.mp ha2
    exact h tok htok

/-- A record whose `Domain` field holds only unmappable tokens. -/
def recFoo : RawRecord := { Domain := some "Foo Bar | Baz" }

/-- C10 witness: the all-unmappable record still yields one signal, with
an empty domains list. -/
theorem C10_transformData_one_output_per_record_witness :
    (∀ tok ∈ jsSplitPipe (jsOrStr recFoo.Domain ""),
      lookupDomain (jsTrim tok) = none) ∧
    (transformRecord recFoo).domains = [] ∧
    (transformData [recFoo]).length = 1 :=
  ⟨by decide, C10_transformData_one_output_per_record.2.2 recFoo (by decide),
    C10_transformData_one_output_per_record.1 [recFoo]⟩

/-! ### Domain-tag mapping (C5) -/

lemma processTokens_append (l1 l2 : List String) :
    processTokens (l1 ++ l2) = processTokens l1 ++ processTokens l2 := by
  simp [processTokens, List.filter_append, List.filterMap_append]

lemma processTokens_single_none {t : String}
    (h : lookupDomain (jsTrim t) = none) : processTokens [t] = [] := by
  unfold processTokens
  simp only [List.map_cons, List.map_nil, List.filter]
  by_cases hl : 0 < (jsTrim t).length
  · simp [hl, h]
  · simp [hl]

/-- C5: the token mapping is case- and surrounding-whitespace-
insensitive (tokens with the same trimmed lowercase form map alike), an
unmappable token is dropped leaving the other tokens' mapped domains
intact and in order (and nothing throws — every stage is total), and the
spec's concrete examples behave as claimed. -/
theorem C5_domain_mapping_insensitive_drops_unknown :
    (∀ t1 t2 : String, jsToLower (jsTrim t1) = jsToLower (jsTrim t2) →
      lookupDomain (jsTrim t1) = lookupDomain (jsTrim t2)) ∧
    (∀ (pre post : List String) (t : String),
      lookupDomain (jsTrim t) = none →
      processTokens (pre ++ t :: post) = processTokens (pre ++ post)) ∧
    (parseDomains " Teaching & Learning Models " = ["teaching-learning"] ∧
      parseDomains "teaching & learning models" = ["teaching-learning"] ∧
      parseDomains "Equity & Access | Foo Bar | Curriculum Reform" =
        ["equity-access", "curriculum-reform"]) := by
  refine ⟨fun t1 t2 h => ?_, fun pre post t h => ?_, by decide⟩
  · unfold lookupDomain
    rw [h]
  · have h1 : pre ++ t :: post = pre ++ [t] ++ post := by simp
    rw [h1, processTokens_append, processTokens_append,
      processTokens_single_none h, processTokens_append]
    simp

/-- C5 witness: the spec's example tokens, processed concretely. -/
theorem C5_domain_mapping_witness :
    jsToLower (jsTrim " Teaching & Learning Models ") =
      jsToLower (jsTrim "teaching & learning models") ∧
    lookupDomain (jsTrim " Teaching & Learning Models ") =
      lookupDomain (jsTrim "teaching & learning models") ∧
    lookupDomain (jsTrim "Foo Bar") = none ∧
    processTokens (["Equity & Access"] ++ "Foo Bar" :: [" Curriculum Reform"]) =
      processTokens (["Equity & Access"] ++ [" Curriculum Reform"]) :=
  ⟨by decide,
    C5_domain_mapping_insensitive_drops_unknown.1 _ _ (by decide),
    by decide,
    C5_domain_mapping_insensitive_drops_unknown.2.1 _ _ _ (by decide)⟩

/-! ### The three-key sort: stability (C6) and the unknown bucket (C1) -/

lemma compareScanHits_eq_zero_of_sortKey_eq {a b : ScanHit}
    (h : sortKey a = sortKey b) : compareScanHits a b = 0 := by
  unfold sortKey at h
  have h1 : steepKey a = steepKey b := congrArg Prod.fst h
  have h2 : innerKey a = innerKey b := congrArg (fun p => p.2.1) h
  have h3 : nextKey a = nextKey b := congrArg (fun p => p.2.2) h
  simp [compareScanHits, h1, h2, h3]

lemma filter_orderedInsert {α : Type} (r : α → α → Prop) [DecidableRel r]
    (p : α → Bool) (a : α) (l : List α)
    (h : p a = true → ∀ b ∈ l, p b = true → r a b) :
    (List.orderedInsert r a l).filter p =
      if p a then a :: l.filter p else l.filter p := by
  induction l with
  | nil => cases hpa : p a <;> simp [hpa, List.filter]
  | cons b t ih =>
    rw [List.orderedInsert]
    by_cases hr : r a b
    · rw [if_pos hr, List.filter_cons]
    · rw [if_neg hr]
      have ih2 := ih (fun hpa b' hb' hpb' =>
        h hpa b' (List.mem_cons_of_mem b hb') hpb')
      cases hpa : p a with
      | false =>
        rw [hpa] at ih2
        simp only [Bool.false_eq_true, if_false] at ih2
        rw [List.filter_cons, List.filter_cons, ih2]
        simp
      | true =>
        have hpb : p b = false := by
          cases hpb' : p b
          · rfl
          · exact absurd (h hpa b (List.mem_cons_self b t) hpb') hr
        rw [hpa] at ih2
        simp only [if_true] at ih2
        rw [List.filter_cons, List.filter_cons, hpb, ih2]
        simp
  
lemma filter_insertionSort {α : Type} (r : α → α → Prop) [DecidableRel r]
    (p : α → Bool) (hp : ∀ a b, p a = true → p b = true → r a b) :
    ∀ l : List α, (List.insertionSort r l).filter p = l.filter p := by
  intro l
  induction l with
  | nil => rfl
  | cons x xs ih =>
    rw [List.insertionSort,
      filter_orderedInsert r p x _ (fun hpx b hb hpb => hp x b hpx hpb), ih,
      List.filter_cons]

/-- C6: the signal sort is stable — for every equal-keys class (the
triple of STEEP index, innermost-domain index, next-outermost-domain
index), the subsequence of the sorted output holding that class is
exactly the subsequence of the input holding it, so any two signals with
all three keys equal keep their relative input order. -/
theorem C6_sortScanHits_stable (l : List ScanHit) (k : Int × Int × Int) :
    (sortScanHits l).filter (fun x => decide (sortKey x = k)) =
      l.filter (fun x => decide (sortKey x = k)) := by
  apply filter_insertionSort
  intro a b ha hb
  have ha' : sortKey a = k := of_decide_eq_true ha
  have hb' : sortKey b = k := of_decide_eq_true hb
  show compareScanHits a b ≤ 0
  rw [compareScanHits_eq_zero_of_sortKey_eq (ha'.trans hb'.symm)]

lemma compareScanHits_le_zero_iff {a b : ScanHit} :
    compareScanHits a b ≤ 0 ↔
      (steepKey a < steepKey b ∨ (steepKey a = steepKey b ∧
        (innerKey a < innerKey b ∨ (innerKey a = innerKey b ∧
          nextKey a ≤ nextKey b)))) := by
  unfold compareScanHits
  by_cases h1 : steepKey a = steepKey b
  · by_cases h2 : innerKey a = innerKey b
    · rw [if_neg (not_not_intro h1), if_neg (not_not_intro h2)]
      omega
    · rw [if_neg (not_not_intro h1), if_pos h2]
      omega
  · rw [if_pos h1]
    omega

instance : IsTotal ScanHit scanLe :=
  ⟨by
    intro a b
    unfold scanLe
    rw [compareScanHits_le_zero_iff, compareScanHits_le_zero_iff]
    omega⟩

instance : IsTrans ScanHit scanLe :=
  ⟨by
    intro a b c hab hbc
    unfold scanLe at *
    rw [compareScanHits_le_zero_iff] at *
    omega⟩

/-- A signal whose `steepCategory || 'Unknown'` is one of the five
`STEEP_ORDER` values (so `indexOf` finds it). -/
def isKnownCategory (a : ScanHit) : Prop :=
  0 ≤ steepKey a

lemma neg_one_le_steepKey (a : ScanHit) : -1 ≤ steepKey a := by
  unfold steepKey jsIndexOf
  cases h : STEEP_ORDER.findIdx? (fun t => t = steepOf a) with
  | none => simp
  | some i => simp only [Int.reduceNeg]; omega

/-- C1 counterexample: with one `'Social'` signal followed by one
absent-category signal, `sortScanHits` puts the unknown-category signal
FIRST — `STEEP_ORDER.indexOf('Unknown')` is `-1`, a leading bucket, not
the trailing bucket of index 5 the claim states. -/
theorem C1_counterexample_unknown_sorts_first :
    sortScanHits [{ steepCategory := some "Social" }, {}] =
      [{}, { steepCategory := some "Social" }] ∧
    steepKey { steepCategory := some "Social" } = 0 ∧
    steepKey ({} : ScanHit) = -1 := by decide

/-- C1 amended: an absent or unrecognized category takes a LEADING
bucket (primary key `-1`, the JS `indexOf` miss value), so in every
sorted output every unknown-category signal is ordered BEFORE all
signals with a known category: once a known-category signal appears,
everything after it also has a known category. -/
theorem C1_amended_unknown_bucket_leads (l : List ScanHit) :
    (sortScanHits l).Pairwise
      (fun a b => isKnownCategory a → isKnownCategory b) := by
  have hs : List.Sorted scanLe (sortScanHits l) :=
    List.sorted_insertionSort scanLe l
  refine hs.imp ?_
  intro a b hab hka
  unfold scanLe at hab
  rw [compareScanHits_le_zero_iff] at hab
  unfold isKnownCategory at *
  omega

/-! ### Whitespace handling of label titles (C7) -/

/-- Step 4 of the interactive label render (`src/RadialScanChart.jsx`
lines 739-743): `scanHit.title.trim()` then truncation to 52 characters
plus `'...'` when longer than 55 — note: trim only, no run collapsing. -/
def interactiveTitleText (title : List Char) : List Char :=
  let cleanTitle := jsTrimL title
  if 55 < cleanTitle.length then cleanTitle.take 52 ++ "...".data
  else cleanTitle

/-- No character of the list is a whitespace character directly followed
by another whitespace character. -/
def noWsPair : List Char → Bool
  | a :: b :: rest => (!(isJsWs a && isJsWs b)) && noWsPair (b :: rest)
  | _ => true

/-- The first character, when present, is not whitespace. -/
def headNotWs (l : List Char) : Bool :=
  match l.head? with
  | none => true
  | some c => !isJsWs c

/-- The final character, when present, is not whitespace. -/
def lastNotWs (l : List Char) : Bool :=
  match l.getLast? with
  | none => true
  | some c => !isJsWs c

set_option maxHeartbeats 2000000 in
lemma collapseWs_nil : collapseWs [] = [] :=
  collapseWs.eq_1

lemma collapseWs_cons_nonws {c : Char} {rest : List Char}
    (h : isJsWs c = false) : collapseWs (c :: rest) = c :: collapseWs rest := by
  rw [collapseWs.eq_2]
  simp [h]

lemma collapseWs_cons_ws_single {c : Char} {rest : List Char}
    (h : isJsWs c = true) (h2 : (rest.head?.map isJsWs).getD false = false) :
    collapseWs (c :: rest) = c :: collapseWs rest := by
  rw [collapseWs.eq_2]
  simp [h, h2]

lemma collapseWs_cons_ws_run {c : Char} {rest : List Char}
    (h : isJsWs c = true) (h2 : (rest.head?.map isJsWs).getD false = true) :
    collapseWs (c :: rest) = ' ' :: collapseWs (rest.dropWhile isJsWs) := by
  rw [collapseWs.eq_2]
  simp [h, h2]

lemma headNotWs_dropWhile (l : List Char) :
    headNotWs (l.dropWhile isJsWs) = true := by
  induction l with
  | nil => rfl
  | cons c rest ih =>
    by_cases hc : isJsWs c
    · rw [List.dropWhile_cons_of_pos hc]
      exact ih
    · rw [List.dropWhile_cons_of_neg hc]
      simp only [headNotWs, List.head?_cons]
      simp [Bool.not_eq_true] at hc
      simp [hc]

lemma headNotWs_collapseWs {l : List Char} (h : headNotWs l = true) :
    headNotWs (collapseWs l) = true := by
  cases l with
  | nil => rw [collapseWs_nil]; rfl
  | cons c rest =>
    have hc : isJsWs c = false := by
      simpa [headNotWs] using h
    rw [collapseWs_cons_nonws hc]
    simp [headNotWs, hc]

lemma noWsPair_cons {c : Char} {l : List Char}
    (hhead : isJsWs c = false ∨ headNotWs l = true)
    (hl : noWsPair l = true) : noWsPair (c :: l) = true := by
  cases l with
  | nil => rfl
  | cons d ds =>
    have hd : isJsWs c = false ∨ isJsWs d = false := by
      rcases hhead with h | h
      · exact Or.inl h
      · exact Or.inr (by simpa [headNotWs] using h)
    rcases hd with h | h <;> simp [noWsPair, h, hl]

theorem noWsPair_collapseWs (l : List Char) :
    noWsPair (collapseWs l) = true := by
  cases l with
  | nil => rw [collapseWs_nil]; rfl
  | cons c rest =>
    by_cases hc : isJsWs c = true
    · by_cases hr : (rest.head?.map isJsWs).getD false = true
      · rw [collapseWs_cons_ws_run hc hr]
        exact noWsPair_cons
          (Or.inr (headNotWs_collapseWs (headNotWs_dropWhile rest)))
          (noWsPair_collapseWs (rest.dropWhile isJsWs))
      · rw [collapseWs_cons_ws_single hc (by simpa using hr)]
        cases rest with
        | nil => rw [collapseWs_nil]; rfl
        | cons d ds =>
          have hd : isJsWs d = false := by
            simpa using hr
          exact noWsPair_cons
            (Or.inr (headNotWs_collapseWs
              (show headNotWs (d :: ds) = true by simp [headNotWs, hd])))
            (noWsPair_collapseWs (d :: ds))
    · rw [collapseWs_cons_nonws (by simpa using hc)]
      exact noWsPair_cons (Or.inl (by simpa using hc))
        (noWsPair_collapseWs rest)
termination_by l.length
decreasing_by
  · simp only [List.length_cons]
    exact Nat.lt_succ_of_le (List.dropWhile_suffix isJsWs).sublist.length_le
  · simp
  · simp

lemma lastNotWs_cons {c : Char} {l : List Char} (h : l ≠ []) :
    lastNotWs (c :: l) = lastNotWs l := by
  cases l with
  | nil => exact absurd rfl h
  | cons d ds => simp [lastNotWs, List.getLast?_cons_cons]

lemma collapseWs_ne_nil {l : List Char} (h : l ≠ []) : collapseWs l ≠ [] := by
  cases l with
  | nil => exact absurd rfl h
  | cons c rest =>
    by_cases hc : isJsWs c = true
    · by_cases hr : (rest.head?.map isJsWs).getD false = true
      · rw [collapseWs_cons_ws_run hc hr]
        simp
      · rw [collapseWs_cons_ws_single hc (by simpa using hr)]
        simp
    · rw [collapseWs_cons_nonws (by simpa using hc)]
      simp

lemma getLast?_dropWhile (p : Char → Bool) (l : List Char)
    (h : l.dropWhile p ≠ []) : (l.dropWhile p).getLast? = l.getLast? := by
  induction l with
  | nil => exact absurd rfl h
  | cons c rest ih =>
    by_cases hc : p c
    · rw [List.dropWhile_cons_of_pos hc] at h ⊢
      have hrest : rest ≠ [] := by
        intro he
        rw [he] at h
        exact h rfl
      rw [ih h]
      cases rest with
      | nil => exact absurd rfl hrest
      | cons d ds => rw [List.getLast?_cons_cons]
    · rw [List.dropWhile_cons_of_neg hc]

lemma mem_of_getLast?_eq {l : List Char} {a : Char}
    (h : l.getLast? = some a) : a ∈ l := by
  induction l with
  | nil => simp at h
  | cons b t ih =>
    cases t with
    | nil =>
      simp only [List.getLast?_singleton, Option.some.injEq] at h
      simp [h]
    | cons d u =>
      rw [List.getLast?_cons_cons] at h
      exact List.mem_cons_of_mem b (ih h)

lemma dropWhile_ne_nil_of_lastNotWs {l : List Char} (hne : l ≠ [])
    (h : lastNotWs l = true) : l.dropWhile isJsWs ≠ [] := by
  intro hd
  rw [List.dropWhile_eq_nil_iff] at hd
  cases hl : l.getLast? with
  | none =>
    rw [List.getLast?_eq_none_iff] at hl
    exact hne hl
  | some a =>
    have hws : isJsWs a = true := hd a (mem_of_getLast?_eq hl)
    rw [lastNotWs, hl] at h
    simp [hws] at h

lemma lastNotWs_dropWhile {l : List Char} (hne : l.dropWhile isJsWs ≠ []) :
    lastNotWs (l.dropWhile isJsWs) = lastNotWs l := by
  unfold lastNotWs
  rw [getLast?_dropWhile isJsWs l hne]

theorem lastNotWs_collapseWs (l : List Char) (h : lastNotWs l = true) :
    lastNotWs (collapseWs l) = true := by
  cases l with
  | nil => rw [collapseWs_nil]; exact h
  | cons c rest =>
    by_cases hc : isJsWs c = true
    · have hrne : rest ≠ [] := by
        intro he
        subst he
        rw [lastNotWs] at h
        simp [hc] at h
      have hrl : lastNotWs rest = true := by
        rw [← lastNotWs_cons hrne]
        exact h
      by_cases hr : (rest.head?.map isJsWs).getD false = true
      · rw [collapseWs_cons_ws_run hc hr]
        have h2 : rest.dropWhile isJsWs ≠ [] :=
          dropWhile_ne_nil_of_lastNotWs hrne hrl
        have h3 : lastNotWs (rest.dropWhile isJsWs) = true := by
          rw [lastNotWs_dropWhile h2]
          exact hrl
        rw [lastNotWs_cons (collapseWs_ne_nil h2)]
        exact lastNotWs_collapseWs (rest.dropWhile isJsWs) h3
      · rw [collapseWs_cons_ws_single hc (by simpa using hr)]
        rw [lastNotWs_cons (collapseWs_ne_nil hrne)]
        exact lastNotWs_collapseWs rest hrl
    · rw [collapseWs_cons_nonws (by simpa using hc)]
      cases rest with
      | nil =>
        rw [collapseWs_nil]
        exact h
      | cons d ds =>
        have hrl : lastNotWs (d :: ds) = true := by
          rw [← lastNotWs_cons (by simp : (d :: ds) ≠ ([] : List Char))]
          exact h
        rw [lastNotWs_cons (collapseWs_ne_nil (by simp))]
        exact lastNotWs_collapseWs (d :: ds) hrl
termination_by l.length
decreasing_by
  · subst_vars
    simp only [List.length_cons]
    exact Nat.lt_succ_of_le (List.dropWhile_suffix isJsWs).sublist.length_le
  · subst_vars
    simp
  · subst_vars
    simp

lemma headNotWs_reverse (l : List Char) :
    headNotWs l.reverse = lastNotWs l := by
  unfold headNotWs lastNotWs
  rw [List.head?_reverse]

lemma lastNotWs_reverse (l : List Char) :
    lastNotWs l.reverse = headNotWs l := by
  unfold headNotWs lastNotWs
  rw [List.getLast?_reverse]

lemma headNotWs_jsTrimL (l : List Char) : headNotWs (jsTrimL l) = true := by
  unfold jsTrimL
  rw [headNotWs_reverse]
  by_cases hY : (l.dropWhile isJsWs).reverse.dropWhile isJsWs = []
  · rw [hY]
    rfl
  · rw [lastNotWs_dropWhile hY, lastNotWs_reverse]
    exact headNotWs_dropWhile l

lemma lastNotWs_jsTrimL (l : List Char) : lastNotWs (jsTrimL l) = true := by
  unfold jsTrimL
  rw [lastNotWs_reverse]
  exact headNotWs_dropWhile _

/-- C7 counterexample: the label text the interactive chart lays out and
measures (`scanHit.title.trim()` then truncation,
`src/RadialScanChart.jsx` lines 739-743) keeps the internal double space
of the title `'a  b'` — internal whitespace runs are NOT collapsed
there, contradicting the claim that every laid-out title has its runs
collapsed. -/
theorem C7_counterexample_interactive_keeps_ws_run :
    interactiveTitleText ['a', ' ', ' ', 'b'] = ['a', ' ', ' ', 'b'] ∧
      noWsPair ['a', ' ', ' ', 'b'] = false := by decide

/-- C7 amended: in the print chart every stored title passes through
`cleanText`, whose output is trimmed (no leading or trailing whitespace)
and has every internal whitespace run of length ≥ 2 collapsed to a
single space (so no two adjacent whitespace characters remain); the
interactive chart only trims the title before truncation — internal
runs survive. -/
theorem C7_print_collapses_interactive_only_trims :
    (∀ l : List Char,
      headNotWs (cleanTextL l) = true ∧ lastNotWs (cleanTextL l) = true ∧
        noWsPair (cleanTextL l) = true) ∧
    ∀ l : List Char, (jsTrimL l).length ≤ 55 →
      interactiveTitleText l = jsTrimL l := by
  constructor
  · intro l
    unfold cleanTextL
    exact ⟨headNotWs_collapseWs (headNotWs_jsTrimL l),
      lastNotWs_collapseWs _ (lastNotWs_jsTrimL l),
      noWsPair_collapseWs _⟩
  · intro l h
    simp only [interactiveTitleText]
    rw [if_neg (by omega)]

/-- C7 witness: the short title `'a  b'` is kept verbatim (only
trimmed) by the interactive chart's label pipeline. -/
theorem C7_print_collapses_interactive_only_trims_witness :
    (jsTrimL ['a', ' ', ' ', 'b']).length ≤ 55 ∧
      interactiveTitleText ['a', ' ', ' ', 'b'] =
        jsTrimL ['a', ' ', ' ', 'b'] :=
  ⟨by decide, C7_print_collapses_interactive_only_trims.2 _ (by decide)⟩
